import Mathlib

/-!
Shallow embedding of `src/mechanisms/mwem.py` (class `MWEM`): the adaptive
select-measure-reestimate loop with exponential-mechanism selection.

Modelling conventions:
* Python floats are modelled as real numbers (`ℝ`).  `np.sqrt` of a negative
  argument returns `nan` in numpy; the embedding uses `Real.sqrt`, whose junk
  value on negatives is `0`.  All concrete witnesses and counterexamples are
  evaluated on inputs where no `nan` arises, so this junk value is never
  load-bearing.
* Python exceptions are modelled by `Except Err`: `Err.zeroDivision` models a
  `ZeroDivisionError` from float division by zero, `Err.valueError` models the
  `ValueError` numpy raises for a reduction (`errors.max()`) over an empty
  array, and `Err.nameError` models the `NameError` from reading the variable
  `loss` when the round loop executed zero iterations.
* External collaborators (datasets, models, inference engines, the numpy
  pseudo-random source) are opaque structures exposing exactly the operations
  the source calls, as the spec's external-interface section describes.  The
  parent `Mechanism` class (not under `src/`) supplies the numeric constants
  `rho`, `sensitivity`, `marginal_sensitivity`; they are structure fields here,
  so every theorem holds for all values of these constants.
* The global numpy random stream (`np.random.choice`, `np.random.normal`) is
  modelled by a single explicit state `σ` threaded through every draw, in the
  order the source performs the draws.
-/

namespace PrivPGD

/-- A query/clique: a Python tuple of attribute names identifying one marginal. -/
abbrev Clique := List String

/-- A domain maps each attribute name to its finite cardinality. -/
def Domain := String → ℕ

/-- Embeds `domain.size(cl)`: the product of the cardinalities of the clique's
attributes, i.e. the length of that clique's marginal vector. -/
def Domain.size (d : Domain) (cl : Clique) : ℕ := (cl.map d).prod

/-- The dataset contract used by `MWEM.run`: `data.domain`,
`data.project(cl).datavector()` (here `proj`), and `data.records`. -/
structure Dataset where
  domain : Domain
  proj : Clique → List ℝ
  records : ℕ

/-- The model contract (`GraphicalModel` or `ParticleModel`): `est.domain`,
`est.project(cl).datavector()` (here `proj`), the scalar `est.size`, and
`est.synthetic_data(records)` (here `synth`). -/
structure Model where
  domain : Domain
  proj : Clique → List ℝ
  size : ℝ
  synth : Option ℕ → Dataset

/-- Python exceptions observable in the modelled code paths. -/
inductive Err
  | zeroDivision
  | valueError
  | nameError
  deriving DecidableEq

/-- A measurement `(Q, y, 1.0, cl)`: `Q = sparse.eye(n)` is recorded by its
dimension `n`, then the noisy marginal vector `y`, the weight, the clique. -/
abbrev Meas := ℕ × List ℝ × ℝ × Clique

/-- The shared pseudo-random source (the global `np.random` stream), as a
deterministic state machine.  `choice n p s` models `np.random.choice(n, p=p)`
(the returned index is below `n` whenever `n > 0`); `normal lo sc n s` models
`np.random.normal(loc=lo, scale=sc, size=n)` (the returned vector has length
`n`). -/
structure Rng (σ : Type) where
  choice : ℕ → List ℝ → σ → ℕ × σ
  normal : ℝ → ℝ → ℕ → σ → List ℝ × σ
  choice_lt : ∀ n p s, 0 < n → (choice n p s).1 < n
  normal_len : ∀ lo sc n s, (normal lo sc n s).1.length = n

/-- The two engine families `run` branches on via
`isinstance(engine, FactoredInference)`. -/
inductive EngineKind
  | factored
  | particle
  deriving DecidableEq

/-- The inference-engine contract: `engine.estimate(measurements, total)`
returns `(model, loss)` and is deterministic in its arguments.
`initParticle` abstracts the model built by the constructor call
`ParticleModel(data.domain, embedding=engine.embedding,
n_particles=engine.n_particles, data_init=self.data_init)` in the particle
branch of `run`. -/
structure Engine where
  kind : EngineKind
  estimate : List Meas → Option ℕ → Model × ℝ
  initParticle : Model

/-- The `MWEM` mechanism object: hyperparameters read in `__init__`
(`rounds`, `max_model_size`, `bounded`) together with the constants the
parent `Mechanism` class supplies (`rho`, `sensitivity`,
`marginal_sensitivity`).  The remaining hyperparameters (`epsilon`, `delta`,
`degree`, `data_init`) do not influence the modelled code paths except
through these constants and through `Engine.initParticle`. -/
structure MWEM where
  rho : ℝ
  sensitivity : ℝ
  marginal_sensitivity : ℝ
  rounds : ℤ
  max_model_size : ℝ
  bounded : Bool

/-- Embeds `scipy.special.softmax`: over the reals the numerically-stabilized form
`exp (z - max z) / Σ exp (z - max z)` equals the plain normalized
exponential. -/
noncomputable def softmax (xs : List ℝ) : List ℝ :=
  xs.map (fun z => Real.exp z / (xs.map Real.exp).sum)

/-- Embeds `errors.max()` for a nonempty numpy array: the maximum of the list.
(Its value on `[]` is junk; the source raises `ValueError` there, which the
embedding of `worst_approximated` surfaces before using this.) -/
noncomputable def maxErr (xs : List ℝ) : ℝ := xs.foldl max (xs.headD 0)

/-- The `errors` array built by the loop in `MWEM.worst_approximated`:
for each clique `cl`, `np.abs(x - xest).sum() - bias` with
`x = workload_answers[cl]`, `xest = est.project(cl).datavector()`, and
`bias = est.domain.size(cl) if penalty else 0`. -/
noncomputable def errorsOf (workload_answers : Clique → List ℝ) (est : Model)
    (workload : List Clique) (penalty : Bool) : List ℝ :=
  workload.map (fun cl =>
    (List.zipWith (fun a b => |a - b|) (workload_answers cl) (est.proj cl)).sum -
      (if penalty then (Domain.size est.domain cl : ℝ) else 0))

/-- Embeds `MWEM.worst_approximated`.  The source computes
`prob = softmax(0.5 * eps / self.sensitivity * (errors - errors.max()))`,
`key = np.random.choice(len(errors), p=prob)` and returns `workload[key]`.
On an empty candidate list, `errors.max()` raises `ValueError` (reduction of
an empty array).  In the source `penalty` defaults to `True`; every call in
`run` uses that default. -/
noncomputable def worst_approximated {σ : Type} (mech : MWEM) (rng : Rng σ)
    (workload_answers : Clique → List ℝ) (est : Model) (workload : List Clique)
    (eps : ℝ) (penalty : Bool) (s : σ) : Except Err (Clique × σ) :=
  if workload = [] then .error .valueError
  else
    let errors := errorsOf workload_answers est workload penalty
    let prob := softmax (errors.map (fun e =>
      0.5 * eps / mech.sensitivity * (e - maxErr errors)))
    let ks := rng.choice errors.length prob s
    .ok (workload.getD ks.1 [], ks.2)

/-- The per-candidate score exactly as the spec words it: "L1 distance between
true marginal and the model's projected marginal for c, minus bias(c) = domain
size of c if penalty is set else 0". -/
noncomputable def specSelError (workload_answers : Clique → List ℝ) (est : Model)
    (penalty : Bool) (cl : Clique) : ℝ :=
  (List.zipWith (fun a b => |a - b|) (workload_answers cl) (est.proj cl)).sum -
    (if penalty then (Domain.size est.domain cl : ℝ) else 0)

/-- The sampling distribution exactly as the spec words it: a softmax of
`(eps / (2 * sensitivity)) * (error(c) - max error)`. -/
noncomputable def specSelProbs (mech : MWEM) (workload_answers : Clique → List ℝ)
    (est : Model) (workload : List Clique) (eps : ℝ) (penalty : Bool) : List ℝ :=
  let errs := workload.map (specSelError workload_answers est penalty)
  softmax (errs.map (fun e => eps / (2 * mech.sensitivity) * (e - maxErr errs)))

theorem errorsOf_eq_spec (workload_answers : Clique → List ℝ) (est : Model)
    (workload : List Clique) (penalty : Bool) :
    errorsOf workload_answers est workload penalty =
      workload.map (specSelError workload_answers est penalty) := rfl

theorem half_eps_div (eps sens e m : ℝ) :
    0.5 * eps / sens * (e - m) = eps / (2 * sens) * (e - m) := by
  rw [div_eq_mul_inv, div_eq_mul_inv, mul_inv]
  ring

/-- Claim C2: for every nonempty candidate list, `worst_approximated` scores
each candidate by the L1 gap between true and projected marginal minus the
domain-size penalty (when set), and samples from the softmax of
`(eps / (2 * sensitivity)) * (score - max score)`; the returned clique is the
candidate at the sampled index. -/
theorem selection_softmax {σ : Type} (mech : MWEM) (rng : Rng σ)
    (workload_answers : Clique → List ℝ) (est : Model) (workload : List Clique)
    (eps : ℝ) (penalty : Bool) (s : σ) (h : workload ≠ []) :
    worst_approximated mech rng workload_answers est workload eps penalty s =
      .ok (workload.getD
            (rng.choice workload.length
              (specSelProbs mech workload_answers est workload eps penalty) s).1 [],
          (rng.choice workload.length
            (specSelProbs mech workload_answers est workload eps penalty) s).2) := by
  unfold worst_approximated
  rw [if_neg h]
  have hfun : (fun e => 0.5 * eps / mech.sensitivity *
        (e - maxErr (errorsOf workload_answers est workload penalty))) =
      (fun e => eps / (2 * mech.sensitivity) *
        (e - maxErr (errorsOf workload_answers est workload penalty))) := by
    funext e
    exact half_eps_div eps mech.sensitivity e _
  have hlen : (errorsOf workload_answers est workload penalty).length =
      workload.length := by
    unfold errorsOf
    exact List.length_map _ _
  simp only [hfun, hlen]
  rfl

theorem worst_approximated_mem {σ : Type} (mech : MWEM) (rng : Rng σ)
    (workload_answers : Clique → List ℝ) (est : Model) (workload : List Clique)
    (eps : ℝ) (penalty : Bool) (s : σ) (cl : Clique) (s' : σ)
    (h : worst_approximated mech rng workload_answers est workload eps penalty s
          = .ok (cl, s')) : cl ∈ workload := by
  unfold worst_approximated at h
  by_cases hw : workload = []
  · rw [if_pos hw] at h
    cases h
  · rw [if_neg hw] at h
    have hlen : (errorsOf workload_answers est workload penalty).length =
        workload.length := List.length_map _ _
    have hpos : 0 < (errorsOf workload_answers est workload penalty).length := by
      rw [hlen]
      exact List.length_pos.mpr hw
    have hkey := rng.choice_lt (errorsOf workload_answers est workload penalty).length
      (softmax ((errorsOf workload_answers est workload penalty).map (fun e =>
        0.5 * eps / mech.sensitivity *
          (e - maxErr (errorsOf workload_answers est workload penalty))))) s hpos
    rw [hlen] at hkey
    have hcl : cl = workload.getD
        (rng.choice (errorsOf workload_answers est workload penalty).length
          (softmax ((errorsOf workload_answers est workload penalty).map (fun e =>
            0.5 * eps / mech.sensitivity *
              (e - maxErr (errorsOf workload_answers est workload penalty))))) s).1 [] := by
      have := congrArg (fun x => match x with
        | Except.ok (p : Clique × σ) => p.1
        | Except.error _ => ([] : Clique)) h
      simpa using this.symm
    rw [hcl, List.getD_eq_getElem _ _ (by simpa [hlen] using hkey)]
    exact List.getElem_mem _

/-- Claim C10: on a nonempty candidate list, `worst_approximated` returns the
clique at the sampled index, an element of that very list.  The function reads
but never writes its inputs: in the source the only state it touches is the
global numpy random stream, which the embedding threads explicitly as `s`, so
the true-answers table, the candidate list and the model are unchanged by
construction. -/
theorem selection_returns_candidate {σ : Type} (mech : MWEM) (rng : Rng σ)
    (workload_answers : Clique → List ℝ) (est : Model) (workload : List Clique)
    (eps : ℝ) (penalty : Bool) (s : σ) (h : workload ≠ []) :
    ∃ cl s', worst_approximated mech rng workload_answers est workload eps penalty s
        = .ok (cl, s') ∧ cl ∈ workload := by
  unfold worst_approximated
  rw [if_neg h]
  refine ⟨_, _, rfl, ?_⟩
  apply worst_approximated_mem mech rng workload_answers est workload eps penalty s
  unfold worst_approximated
  rw [if_neg h]

/-- The mutable locals of the round loop in `MWEM.run`: the current model
`est`, the growing `measurements` log, the list `cliques` of selected cliques,
the last recorded `loss` (`none` while the Python variable is still unbound),
and the random-stream state. -/
structure LoopState (σ : Type) where
  est : Model
  measurements : List Meas
  cliques : List Clique
  loss : Option ℝ
  s : σ

/-- The values `run` fixes once, before the round loop, and that every round
reads unchanged: the mechanism, data, workload, engine, random source, the
model-size function `size` (modelling
`GraphicalModel(domain, cliques).size * 8 / 2**20`), the precomputed
`workload_answers`, the budget-split outputs `sigma` and `exp_eps`, the
record `total`, and the effective round count `rounds`. -/
structure LoopCtx (σ : Type) where
  mech : MWEM
  data : Dataset
  workload : List Clique
  engine : Engine
  rng : Rng σ
  sizeMB : List Clique → ℝ
  workload_answers : Clique → List ℝ
  sigma : ℝ
  exp_eps : ℝ
  total : Option ℕ
  rounds : ℤ

/-- The candidate set the size scheduler builds in round `i` of the factored
branch: `[cl for cl in workload if size(cliques + [cl]) <= self.max_model_size * i / rounds]`. -/
noncomputable def candidatesOf {σ : Type} (C : LoopCtx σ) (i : ℕ)
    (st : LoopState σ) : List Clique :=
  C.workload.filter (fun cl =>
    decide (C.sizeMB (st.cliques ++ [cl]) ≤
      C.mech.max_model_size * (i : ℝ) / (C.rounds : ℝ)))

/-- The selection step of round `i`: the factored branch restricts to the
scheduler's candidates, the particle branch passes the whole workload. -/
noncomputable def selectClique {σ : Type} (C : LoopCtx σ) (i : ℕ)
    (st : LoopState σ) : Except Err (Clique × σ) :=
  match C.engine.kind with
  | .factored => worst_approximated C.mech C.rng C.workload_answers st.est
      (candidatesOf C i st) C.exp_eps true st.s
  | .particle => worst_approximated C.mech C.rng C.workload_answers st.est
      C.workload C.exp_eps true st.s

/-- One iteration of the round loop in `MWEM.run`: select a clique, draw the
exact marginal, add Gaussian noise of scale
`self.marginal_sensitivity * sigma`, append the measurement
`(sparse.eye(n), y, 1.0, ax)`, and re-estimate from the entire accumulated
log. -/
noncomputable def roundStep {σ : Type} (C : LoopCtx σ) (i : ℕ)
    (st : LoopState σ) : Except Err (LoopState σ) :=
  match selectClique C i st with
  | .error e => .error e
  | .ok axs =>
    let ax := axs.1
    let n := Domain.size C.data.domain ax
    let x := C.data.proj ax
    let ns := C.rng.normal 0 (C.mech.marginal_sensitivity * C.sigma) n axs.2
    let y := List.zipWith (· + ·) x ns.1
    let measurements' := st.measurements ++ [(n, y, (1 : ℝ), ax)]
    let el := C.engine.estimate measurements' C.total
    .ok ⟨el.1, measurements', st.cliques ++ [ax], some el.2, ns.2⟩

/-- Embeds `for i in range(i0, i0 + k)` over `roundStep`: runs rounds `i0, …, i0 + k - 1`
in order, stopping at the first raised exception. -/
noncomputable def runRoundsFrom {σ : Type} (C : LoopCtx σ) :
    ℕ → ℕ → LoopState σ → Except Err (LoopState σ)
  | _, 0, st => .ok st
  | i, k + 1, st =>
    match roundStep C i st with
    | .error e => .error e
    | .ok st' => runRoundsFrom C (i + 1) k st'

/-- How `run` obtains the model used for round 1's selection: the factored
branch calls `engine.estimate([], total)`; the particle branch constructs a
fresh `ParticleModel` (abstracted as `engine.initParticle`) without calling
the estimator. -/
noncomputable def initialModel (engine : Engine) (total : Option ℕ) : Model :=
  match engine.kind with
  | .factored => (engine.estimate [] total).1
  | .particle => engine.initParticle

/-- The loop context `run` builds once before the loop.  `sigma` and
`exp_eps` are the budget-split outputs
`np.sqrt(0.5 / (alpha * rho_per_round))` and
`np.sqrt(8 * (1 - alpha) * rho_per_round)` with
`rho_per_round = self.rho / rounds`; `total` is
`data.records if self.bounded else None`; `workload_answers` maps `cl` to
`data.project(cl).datavector()` (in the source a dict over the workload's
cliques — every lookup the loop performs is at such a clique). -/
noncomputable def mkCtx {σ : Type} (mech : MWEM) (data : Dataset)
    (workload : List Clique) (engine : Engine) (rng : Rng σ)
    (sizeMB : List Clique → ℝ) (alpha : ℝ) (rounds : ℤ) : LoopCtx σ :=
  ⟨mech, data, workload, engine, rng, sizeMB,
    fun cl => data.proj cl,
    Real.sqrt (0.5 / (alpha * (mech.rho / (rounds : ℝ)))),
    Real.sqrt (8 * (1 - alpha) * (mech.rho / (rounds : ℝ))),
    if mech.bounded then some data.records else none,
    rounds⟩

/-- Embeds `MWEM.run` up to (and including) the round loop, returning the final loop
state together with the effective round count.  The two `zeroDivision`
branches model the only Python-level failures of the setup phase: `rho /
rounds` with `rounds = 0`, and `0.5 / (alpha * rho_per_round)` with a zero
denominator (both raise `ZeroDivisionError` before the private data is
projected). -/
noncomputable def runState {σ : Type} (mech : MWEM) (data : Dataset)
    (workload : List Clique) (engine : Engine) (rng : Rng σ)
    (sizeMB : List Clique → ℝ) (alpha : ℝ) (s0 : σ) :
    Except Err (ℤ × LoopState σ) :=
  let rounds : ℤ := min (workload.length : ℤ) mech.rounds
  if rounds = 0 then .error .zeroDivision
  else if alpha * (mech.rho / (rounds : ℝ)) = 0 then .error .zeroDivision
  else
    match runRoundsFrom (mkCtx mech data workload engine rng sizeMB alpha rounds)
        1 rounds.toNat
        ⟨initialModel engine (if mech.bounded then some data.records else none),
         [], [], none, s0⟩ with
    | .error e => .error e
    | .ok st => .ok (rounds, st)

/-- Embeds `MWEM.run` in full: after the loop the source returns
`est.synthetic_data(records), loss`.  When the loop executed zero iterations
the Python variable `loss` is unbound and reading it raises `NameError`. -/
noncomputable def run {σ : Type} (mech : MWEM) (data : Dataset)
    (workload : List Clique) (engine : Engine) (rng : Rng σ)
    (sizeMB : List Clique → ℝ) (alpha : ℝ) (records : Option ℕ) (s0 : σ) :
    Except Err (Dataset × ℝ) :=
  match runState mech data workload engine rng sizeMB alpha s0 with
  | .error e => .error e
  | .ok rst =>
    match rst.2.loss with
    | none => .error .nameError
    | some loss => .ok (rst.2.est.synth records, loss)

theorem roundStep_ok_inv {σ : Type} (C : LoopCtx σ) (i : ℕ)
    (st st' : LoopState σ) (h : roundStep C i st = .ok st') :
    ∃ ax s1, selectClique C i st = .ok (ax, s1) ∧
      st' =
        (let n := Domain.size C.data.domain ax
         let ns := C.rng.normal 0 (C.mech.marginal_sensitivity * C.sigma) n s1
         let y := List.zipWith (· + ·) (C.data.proj ax) ns.1
         let ms := st.measurements ++ [(n, y, (1 : ℝ), ax)]
         let el := C.engine.estimate ms C.total
         ⟨el.1, ms, st.cliques ++ [ax], some el.2, ns.2⟩) := by
  unfold roundStep at h
  cases hs : selectClique C i st with
  | error e =>
    rw [hs] at h
    cases h
  | ok p =>
    obtain ⟨a, b⟩ := p
    rw [hs] at h
    refine ⟨a, b, rfl, ?_⟩
    simp only at h
    injection h with h'
    exact h'.symm

theorem roundStep_appends {σ : Type} (C : LoopCtx σ) (i : ℕ)
    (st st' : LoopState σ) (h : roundStep C i st = .ok st') :
    ∃ m, st'.measurements = st.measurements ++ [m] := by
  obtain ⟨ax, s1, _, hst⟩ := roundStep_ok_inv C i st st' h
  exact ⟨_, by rw [hst]⟩

theorem runRoundsFrom_meas {σ : Type} (C : LoopCtx σ) :
    ∀ (k i : ℕ) (st st' : LoopState σ), runRoundsFrom C i k st = .ok st' →
      st'.measurements.length = st.measurements.length + k ∧
        ∃ t, st'.measurements = st.measurements ++ t := by
  intro k
  induction k with
  | zero =>
    intro i st st' h
    unfold runRoundsFrom at h
    injection h with h'
    subst h'
    exact ⟨rfl, [], by simp⟩
  | succ k ih =>
    intro i st st' h
    unfold runRoundsFrom at h
    cases hs : roundStep C i st with
    | error e =>
      rw [hs] at h
      cases h
    | ok st1 =>
      rw [hs] at h
      obtain ⟨m, hm⟩ := roundStep_appends C i st st1 hs
      obtain ⟨hl, t, ht⟩ := ih (i + 1) st1 st' h
      constructor
      · rw [hl, hm]
        simp
        omega
      · refine ⟨m :: t, ?_⟩
        rw [ht, hm]
        simp

/-- Claim C1: when `R = min(|workload|, rounds) ≥ 1`, `ρ > 0` and
`α ∈ (0,1)`, the setup phase of `run` raises nothing, computes the split
`ρ_r = ρ / R`, `σ = sqrt(0.5 / (α·ρ_r))`, `ε_sel = sqrt(8·(1−α)·ρ_r)` once,
and drives every round through `runRoundsFrom` with the one fixed context
holding exactly these values (so every round reads them unchanged). -/
theorem budget_split_once {σ : Type} (mech : MWEM) (data : Dataset)
    (workload : List Clique) (engine : Engine) (rng : Rng σ)
    (sizeMB : List Clique → ℝ) (alpha : ℝ) (s0 : σ)
    (hR : 1 ≤ min (workload.length : ℤ) mech.rounds) (hrho : 0 < mech.rho)
    (ha0 : 0 < alpha) (ha1 : alpha < 1) :
    (mkCtx mech data workload engine rng sizeMB alpha
        (min (workload.length : ℤ) mech.rounds)).sigma =
      Real.sqrt (0.5 / (alpha *
        (mech.rho / ((min (workload.length : ℤ) mech.rounds : ℤ) : ℝ)))) ∧
    (mkCtx mech data workload engine rng sizeMB alpha
        (min (workload.length : ℤ) mech.rounds)).exp_eps =
      Real.sqrt (8 * (1 - alpha) *
        (mech.rho / ((min (workload.length : ℤ) mech.rounds : ℤ) : ℝ))) ∧
    runState mech data workload engine rng sizeMB alpha s0 =
      (match runRoundsFrom
          (mkCtx mech data workload engine rng sizeMB alpha
            (min (workload.length : ℤ) mech.rounds))
          1 (min (workload.length : ℤ) mech.rounds).toNat
          ⟨initialModel engine (if mech.bounded then some data.records else none),
           [], [], none, s0⟩ with
       | .error e => .error e
       | .ok st => .ok (min (workload.length : ℤ) mech.rounds, st)) := by
  refine ⟨rfl, rfl, ?_⟩
  have hne : min (workload.length : ℤ) mech.rounds ≠ 0 := by omega
  have hposR : (0 : ℝ) < ((min (workload.length : ℤ) mech.rounds : ℤ) : ℝ) := by
    exact_mod_cast lt_of_lt_of_le one_pos hR
  have hden : alpha *
      (mech.rho / ((min (workload.length : ℤ) mech.rounds : ℤ) : ℝ)) ≠ 0 := by
    have : 0 < alpha *
        (mech.rho / ((min (workload.length : ℤ) mech.rounds : ℤ) : ℝ)) :=
      mul_pos ha0 (div_pos hrho hposR)
    exact ne_of_gt this
  unfold runState
  rw [if_neg hne, if_neg hden]

/-- Claim C5: the loop appends exactly one measurement per round (so after any
`k` completed rounds the log has grown by exactly `k` entries and the earlier
log is an unchanged front segment of the later one), and a `runState` that
returns normally ends with exactly `R = min(|workload|, rounds)` (as a
natural number) log entries, starting from the empty log. -/
theorem measurement_log_length {σ : Type} (mech : MWEM) (data : Dataset)
    (workload : List Clique) (engine : Engine) (rng : Rng σ)
    (sizeMB : List Clique → ℝ) (alpha : ℝ) (s0 : σ) :
    (∀ (C : LoopCtx σ) (i : ℕ) (st st' : LoopState σ),
       roundStep C i st = .ok st' →
         ∃ m, st'.measurements = st.measurements ++ [m]) ∧
    (∀ (C : LoopCtx σ) (k i : ℕ) (st st' : LoopState σ),
       runRoundsFrom C i k st = .ok st' →
         st'.measurements.length = st.measurements.length + k ∧
           ∃ t, st'.measurements = st.measurements ++ t) ∧
    (∀ (R : ℤ) (st : LoopState σ),
       runState mech data workload engine rng sizeMB alpha s0 = .ok (R, st) →
         R = min (workload.length : ℤ) mech.rounds ∧
           st.measurements.length =
             (min (workload.length : ℤ) mech.rounds).toNat) := by
  refine ⟨fun C i st st' h => roundStep_appends C i st st' h,
    fun C k i st st' h => runRoundsFrom_meas C k i st st' h, ?_⟩
  intro R st h
  unfold runState at h
  by_cases h0 : min (workload.length : ℤ) mech.rounds = 0
  · rw [if_pos h0] at h
    cases h
  · rw [if_neg h0] at h
    by_cases h1 : alpha *
        (mech.rho / ((min (workload.length : ℤ) mech.rounds : ℤ) : ℝ)) = 0
    · rw [if_pos h1] at h
      cases h
    · rw [if_neg h1] at h
      cases hl : runRoundsFrom
          (mkCtx mech data workload engine rng sizeMB alpha
            (min (workload.length : ℤ) mech.rounds))
          1 (min (workload.length : ℤ) mech.rounds).toNat
          ⟨initialModel engine (if mech.bounded then some data.records else none),
           [], [], none, s0⟩ with
      | error e =>
        rw [hl] at h
        cases h
      | ok stf =>
        rw [hl] at h
        injection h with h'
        have h1 := congrArg Prod.fst h'
        have h2 := congrArg Prod.snd h'
        simp only at h1 h2
        subst h1
        subst h2
        obtain ⟨hlen, _⟩ := runRoundsFrom_meas _ _ _ _ _ hl
        exact ⟨rfl, by simpa using hlen⟩

/-- Claim C6: `run` (and the whole loop state it builds, measurement log
included) is a pure function of the mechanism, data, workload,
hyperparameters, engine and the one random-stream state: the source draws all
its randomness (`np.random.choice` in the selector, `np.random.normal` for
measurement noise) from the single global numpy stream, modelled here as the
single state `s` threaded through every draw, so equal seeds give equal
measurement logs and equal synthetic outputs. -/
theorem run_deterministic {σ : Type} (mech : MWEM) (data : Dataset)
    (workload : List Clique) (engine : Engine) (rng : Rng σ)
    (sizeMB : List Clique → ℝ) (alpha : ℝ) (records : Option ℕ)
    (s0 s1 : σ) (h : s0 = s1) :
    runState mech data workload engine rng sizeMB alpha s0 =
      runState mech data workload engine rng sizeMB alpha s1 ∧
    run mech data workload engine rng sizeMB alpha records s0 =
      run mech data workload engine rng sizeMB alpha records s1 := by
  subst h
  exact ⟨rfl, rfl⟩

theorem selectClique_factored_mem {σ : Type} (C : LoopCtx σ)
    (hk : C.engine.kind = .factored) (i : ℕ) (st : LoopState σ)
    (ax : Clique) (s1 : σ) (h : selectClique C i st = .ok (ax, s1)) :
    ax ∈ candidatesOf C i st := by
  unfold selectClique at h
  rw [hk] at h
  exact worst_approximated_mem _ _ _ _ _ _ _ _ _ _ h

theorem roundStep_size_cap {σ : Type} (C : LoopCtx σ)
    (hk : C.engine.kind = .factored) (i : ℕ) (st st' : LoopState σ)
    (h : roundStep C i st = .ok st') :
    C.sizeMB st'.cliques ≤
      C.mech.max_model_size * (i : ℝ) / (C.rounds : ℝ) := by
  obtain ⟨ax, s1, hsel, hst⟩ := roundStep_ok_inv C i st st' h
  have hmem := selectClique_factored_mem C hk i st ax s1 hsel
  unfold candidatesOf at hmem
  have hpred := List.of_mem_filter hmem
  have hle : C.sizeMB (st.cliques ++ [ax]) ≤
      C.mech.max_model_size * (i : ℝ) / (C.rounds : ℝ) :=
    of_decide_eq_true hpred
  rw [hst]
  exact hle

theorem runRoundsFrom_size_cap {σ : Type} (C : LoopCtx σ)
    (hk : C.engine.kind = .factored) :
    ∀ (k i : ℕ) (st st' : LoopState σ), runRoundsFrom C i k st = .ok st' →
      1 ≤ k →
      C.sizeMB st'.cliques ≤
        C.mech.max_model_size * ((i + (k - 1) : ℕ) : ℝ) / (C.rounds : ℝ) := by
  intro k
  induction k with
  | zero =>
    intro i st st' _ hk1
    omega
  | succ k ih =>
    intro i st st' h _
    unfold runRoundsFrom at h
    cases hs : roundStep C i st with
    | error e =>
      rw [hs] at h
      cases h
    | ok st1 =>
      rw [hs] at h
      rcases Nat.eq_zero_or_pos k with hk0 | hkpos
      · subst hk0
        unfold runRoundsFrom at h
        injection h with h'
        subst h'
        have := roundStep_size_cap C hk i st _ hs
        simpa using this
      · have := ih (i + 1) st1 st' h hkpos
        have harith : ((i + 1) + (k - 1) : ℕ) = (i + (k + 1 - 1) : ℕ) := by omega
        rw [harith] at this
        exact this

/-- Claim C7: with a size-aware (factored) engine, each completed round `i`
commits a clique that keeps the scheduler's bound
`size(already_selected ++ [selected]) ≤ max_model_size * i / rounds`, and a
run whose loop completes all `R ≥ 1` rounds ends with total committed model
size at most `max_model_size`. -/
theorem model_size_cap {σ : Type} (mech : MWEM) (data : Dataset)
    (workload : List Clique) (engine : Engine) (rng : Rng σ)
    (sizeMB : List Clique → ℝ) (alpha : ℝ) (s0 : σ)
    (hkind : engine.kind = .factored)
    (hR : 1 ≤ min (workload.length : ℤ) mech.rounds) :
    (∀ (C : LoopCtx σ), C.engine.kind = .factored →
       ∀ (i : ℕ) (st st' : LoopState σ), roundStep C i st = .ok st' →
         C.sizeMB st'.cliques ≤
           C.mech.max_model_size * (i : ℝ) / (C.rounds : ℝ)) ∧
    (∀ (R : ℤ) (st : LoopState σ),
       runState mech data workload engine rng sizeMB alpha s0 = .ok (R, st) →
         sizeMB st.cliques ≤ mech.max_model_size) := by
  refine ⟨fun C hC i st st' h => roundStep_size_cap C hC i st st' h, ?_⟩
  intro R st h
  unfold runState at h
  by_cases h0 : min (workload.length : ℤ) mech.rounds = 0
  · rw [if_pos h0] at h
    cases h
  · rw [if_neg h0] at h
    by_cases h1 : alpha *
        (mech.rho / ((min (workload.length : ℤ) mech.rounds : ℤ) : ℝ)) = 0
    · rw [if_pos h1] at h
      cases h
    · rw [if_neg h1] at h
      cases hl : runRoundsFrom
          (mkCtx mech data workload engine rng sizeMB alpha
            (min (workload.length : ℤ) mech.rounds))
          1 (min (workload.length : ℤ) mech.rounds).toNat
          ⟨initialModel engine (if mech.bounded then some data.records else none),
           [], [], none, s0⟩ with
      | error e =>
        rw [hl] at h
        cases h
      | ok stf =>
        rw [hl] at h
        injection h with h'
        have h2 := congrArg Prod.snd h'
        simp only at h2
        subst h2
        have hk1 : 1 ≤ (min (workload.length : ℤ) mech.rounds).toNat := by omega
        have hcap := runRoundsFrom_size_cap
          (mkCtx mech data workload engine rng sizeMB alpha
            (min (workload.length : ℤ) mech.rounds)) hkind _ _ _ _ hl hk1
        have harith : ((1 + ((min (workload.length : ℤ) mech.rounds).toNat - 1) : ℕ) : ℝ) =
            ((min (workload.length : ℤ) mech.rounds : ℤ) : ℝ) := by
          have hnat : (1 + ((min (workload.length : ℤ) mech.rounds).toNat - 1) : ℕ) =
              (min (workload.length : ℤ) mech.rounds).toNat := by omega
          rw [hnat]
          have hz : (((min (workload.length : ℤ) mech.rounds).toNat : ℕ) : ℤ) =
              min (workload.length : ℤ) mech.rounds :=
            Int.toNat_of_nonneg (by omega)
          exact_mod_cast hz
        rw [harith] at hcap
        have hRne : ((min (workload.length : ℤ) mech.rounds : ℤ) : ℝ) ≠ 0 := by
          exact_mod_cast h0
        calc sizeMB stf.cliques ≤
            mech.max_model_size *
              ((min (workload.length : ℤ) mech.rounds : ℤ) : ℝ) /
              ((min (workload.length : ℤ) mech.rounds : ℤ) : ℝ) := hcap
          _ = mech.max_model_size := by
              rw [mul_div_assoc, div_self hRne, mul_one]

/-- Claim C8: a completed round records exactly the measurement
`(sparse.eye(n), y, 1.0, ax)` for the selected clique `ax`, where
`n = domain.size(ax)`, `y` is the exact marginal `data.project(ax).datavector()`
plus the vector drawn from the random source's `normal` with mean `0`, scale
`marginal_sensitivity * sigma` and size `n`; under the dataset contract the
logged vector's length is `n`, the product of the clique's cardinalities. -/
theorem measurement_record_form {σ : Type} (C : LoopCtx σ) (i : ℕ)
    (st st' : LoopState σ)
    (hwf : ∀ cl, (C.data.proj cl).length = Domain.size C.data.domain cl)
    (h : roundStep C i st = .ok st') :
    ∃ ax s1, selectClique C i st = .ok (ax, s1) ∧
      st'.measurements = st.measurements ++
        [(Domain.size C.data.domain ax,
          List.zipWith (· + ·) (C.data.proj ax)
            (C.rng.normal 0 (C.mech.marginal_sensitivity * C.sigma)
              (Domain.size C.data.domain ax) s1).1,
          (1 : ℝ), ax)] ∧
      (List.zipWith (· + ·) (C.data.proj ax)
        (C.rng.normal 0 (C.mech.marginal_sensitivity * C.sigma)
          (Domain.size C.data.domain ax) s1).1).length
        = Domain.size C.data.domain ax := by
  obtain ⟨ax, s1, hsel, hst⟩ := roundStep_ok_inv C i st st' h
  refine ⟨ax, s1, hsel, ?_, ?_⟩
  · rw [hst]
  · rw [List.length_zipWith, hwf ax, C.rng.normal_len]
    exact min_self _

/-- Claim C9, amended: only the factored branch obtains its initial model from
`engine.estimate([], total)`; the particle branch constructs a fresh
`ParticleModel` without calling the estimator.  Every completed round
re-estimates from the entire accumulated measurement log (the previous log
plus the one new entry), replacing the model and loss. -/
theorem initial_model_reestimation (σ : Type) :
    (∀ (engine : Engine) (total : Option ℕ), engine.kind = .factored →
       initialModel engine total = (engine.estimate [] total).1) ∧
    (∀ (engine : Engine) (total : Option ℕ), engine.kind = .particle →
       initialModel engine total = engine.initParticle) ∧
    (∀ (C : LoopCtx σ) (i : ℕ) (st st' : LoopState σ),
       roundStep C i st = .ok st' →
         st'.est = (C.engine.estimate st'.measurements C.total).1 ∧
         st'.loss = some (C.engine.estimate st'.measurements C.total).2 ∧
         ∃ m, st'.measurements = st.measurements ++ [m]) := by
  refine ⟨?_, ?_, ?_⟩
  · intro engine total hk
    unfold initialModel
    rw [hk]
  · intro engine total hk
    unfold initialModel
    rw [hk]
  · intro C i st st' h
    obtain ⟨ax, s1, _, hst⟩ := roundStep_ok_inv C i st st' h
    refine ⟨?_, ?_, roundStep_appends C i st st' h⟩
    · rw [hst]
    · rw [hst]

/-- Claim C3, amended: `run` performs no configuration validation.  Before
touching the private data it fails only with a division-by-zero: when
`R = min(|workload|, rounds) = 0` (the division `rho / rounds`), or when
`alpha * (rho / R) = 0` (the division `0.5 / (alpha * rho_per_round)`, e.g.
`alpha = 0` or `rho = 0`).  Other invalid configurations (such as `alpha = 1`,
which lies outside `(0,1)`) raise no immediate error — see the
counterexample, where such a run completes normally. -/
theorem run_divzero_only {σ : Type} (mech : MWEM) (data : Dataset)
    (workload : List Clique) (engine : Engine) (rng : Rng σ)
    (sizeMB : List Clique → ℝ) (alpha : ℝ) (s0 : σ) :
    (min (workload.length : ℤ) mech.rounds = 0 →
       runState mech data workload engine rng sizeMB alpha s0 =
         .error .zeroDivision) ∧
    (alpha * (mech.rho / ((min (workload.length : ℤ) mech.rounds : ℤ) : ℝ)) = 0 →
       runState mech data workload engine rng sizeMB alpha s0 =
         .error .zeroDivision) := by
  constructor
  · intro h0
    unfold runState
    rw [if_pos h0]
  · intro h1
    unfold runState
    by_cases h0 : min (workload.length : ℤ) mech.rounds = 0
    · rw [if_pos h0]
    · rw [if_neg h0, if_pos h1]

/-- Claim C4, amended: `worst_approximated` fails on an empty candidate list
(the reduction `errors.max()` over an empty array), and in a size-aware round
whose scheduler leaves no admissible candidate, `run`'s loop passes that empty
list straight to the selector, so the surfaced error is the selector's generic
one — it carries neither the round index nor the cap value. -/
theorem empty_candidates_selector_error {σ : Type} (mech : MWEM) (rng : Rng σ)
    (wa : Clique → List ℝ) (est : Model) (eps : ℝ) (penalty : Bool) (s : σ) :
    worst_approximated mech rng wa est [] eps penalty s = .error .valueError ∧
    (∀ (C : LoopCtx σ) (i : ℕ) (st : LoopState σ), C.engine.kind = .factored →
       candidatesOf C i st = [] →
         roundStep C i st = .error .valueError) := by
  constructor
  · unfold worst_approximated
    rw [if_pos rfl]
  · intro C i st hk hc
    unfold roundStep selectClique
    rw [hk, hc]
    rfl

/- Concrete instances for witnesses and counterexamples.  The domain gives
every attribute cardinality 1, the dataset and models answer every projection
with the all-zero vector of the right length, the engines' estimator returns a
fixed model with loss 0, and the random source returns index 0 and all-zero
noise, ignoring its distribution arguments. -/

def D0 : Domain := fun _ => 1

noncomputable def dataA : Dataset :=
  ⟨D0, fun cl => List.replicate (Domain.size D0 cl) 0, 5⟩

noncomputable def model0 : Model :=
  ⟨D0, fun cl => List.replicate (Domain.size D0 cl) 0, 0, fun _ => dataA⟩

noncomputable def modelB : Model :=
  ⟨D0, fun cl => List.replicate (Domain.size D0 cl) 0, 7, fun _ => dataA⟩

noncomputable def engineP : Engine := ⟨.particle, fun _ _ => (model0, 0), model0⟩

noncomputable def engineF : Engine := ⟨.factored, fun _ _ => (model0, 0), model0⟩

noncomputable def engineP9 : Engine := ⟨.particle, fun _ _ => (modelB, 3), model0⟩

noncomputable def rng0 : Rng Unit :=
  ⟨fun _ _ s => (0, s), fun _ _ n s => (List.replicate n 0, s),
   fun _ _ _ h => h, fun _ _ _ _ => by simp⟩

noncomputable def mech0 : MWEM := ⟨1, 1, 1, 1, 1, true⟩

def wl1 : List Clique := [["a"]]

noncomputable def size0 : List Clique → ℝ := fun _ => 0

noncomputable def size2 : List Clique → ℝ := fun _ => 2

/-- The loop state after the single round of the concrete runs below. -/
noncomputable def stP : LoopState Unit :=
  ⟨model0, [(1, [(0 : ℝ)], (1 : ℝ), ["a"])], [["a"]], some 0, ()⟩

noncomputable def ctxP : LoopCtx Unit :=
  mkCtx mech0 dataA wl1 engineP rng0 size0 (1 / 2) 1

noncomputable def ctxF2 : LoopCtx Unit :=
  mkCtx mech0 dataA wl1 engineF rng0 size2 (1 / 2) 1

noncomputable def st0P : LoopState Unit := ⟨model0, [], [], none, ()⟩

theorem roundStep_ctxP : roundStep ctxP 1 st0P = .ok stP := by
  unfold roundStep selectClique worst_approximated
  norm_num [ctxP, mkCtx, engineP, wl1, mech0, errorsOf, rng0, dataA, model0,
    D0, Domain.size, st0P, stP]

/-- Claim C9 counterexample: for a particle engine, the model `run` uses for
round 1's selection is the freshly constructed `ParticleModel`
(`initParticle`, size 0 here) and not the result of calling the estimator
with an empty measurement sequence (size 7 here). -/
theorem particle_initial_not_estimated :
    (initialModel engineP9 none).size ≠ ((engineP9.estimate [] none).1).size := by
  show (0 : ℝ) ≠ 7
  norm_num

theorem runState_particle_half :
    runState mech0 dataA wl1 engineP rng0 size0 (1 / 2) () = .ok (1, stP) := by
  unfold runState
  norm_num [wl1, mech0, runRoundsFrom, roundStep, selectClique, worst_approximated,
    mkCtx, engineP, initialModel, errorsOf, rng0, dataA, model0, D0, Domain.size, stP]

theorem runState_factored_half :
    runState mech0 dataA wl1 engineF rng0 size0 (1 / 2) () = .ok (1, stP) := by
  unfold runState
  norm_num [wl1, mech0, runRoundsFrom, roundStep, selectClique, worst_approximated,
    candidatesOf, size0, mkCtx, engineF, initialModel, errorsOf, rng0, dataA,
    model0, D0, Domain.size, stP]

/-- Claim C3 counterexample: with `alpha = 1` — outside the open interval
`(0,1)` — and a well-formed workload and positive budget, `run` does not fail
at all: it completes the whole round loop (touching the private data and
recording a measurement on the way) and returns a synthetic dataset.  So `run`
does not fail immediately on `alpha` outside `(0,1)`. -/
theorem run_alpha_one_ok :
    run mech0 dataA wl1 engineP rng0 size0 1 none () = .ok (dataA, 0) := by
  have h : runState mech0 dataA wl1 engineP rng0 size0 1 () = .ok (1, stP) := by
    unfold runState
    norm_num [wl1, mech0, runRoundsFrom, roundStep, selectClique,
      worst_approximated, mkCtx, engineP, initialModel, errorsOf, rng0, dataA,
      model0, D0, Domain.size, stP]
  unfold run
  rw [h]
  rfl

theorem candidatesOf_ctxF2 : candidatesOf ctxF2 1 st0P = [] := by
  unfold candidatesOf
  norm_num [ctxF2, mkCtx, wl1, mech0, size2, st0P]

/-- Claim C4 counterexample: in a size-aware run whose first round admits no
candidate under the cap, the empty candidate set is handed to the selector and
the error `run` surfaces is the selector's generic empty-reduction
`ValueError` — the error value carries no round index and no cap value. -/
theorem run_empty_candidates_generic_error :
    candidatesOf ctxF2 1 st0P = [] ∧
    run mech0 dataA wl1 engineF rng0 size2 (1 / 2) none () =
      .error .valueError := by
  refine ⟨candidatesOf_ctxF2, ?_⟩
  have h : runState mech0 dataA wl1 engineF rng0 size2 (1 / 2) () =
      .error .valueError := by
    unfold runState
    norm_num [wl1, mech0, runRoundsFrom, roundStep, selectClique,
      worst_approximated, candidatesOf, size2, mkCtx, engineF, initialModel,
      errorsOf, rng0, dataA, model0, D0, Domain.size]
  unfold run
  rw [h]

/-- Witness for C1: the budget-split theorem applied to a concrete run. -/
theorem budget_split_once_witness :
    (1 ≤ min ((wl1.length : ℤ)) mech0.rounds) ∧ (0 < mech0.rho) ∧
    ((0 : ℝ) < 1 / 2) ∧ ((1 / 2 : ℝ) < 1) ∧
    ((mkCtx mech0 dataA wl1 engineP rng0 size0 (1 / 2)
        (min ((wl1.length : ℤ)) mech0.rounds)).sigma =
      Real.sqrt (0.5 / ((1 / 2) *
        (mech0.rho / ((min ((wl1.length : ℤ)) mech0.rounds : ℤ) : ℝ)))) ∧
    (mkCtx mech0 dataA wl1 engineP rng0 size0 (1 / 2)
        (min ((wl1.length : ℤ)) mech0.rounds)).exp_eps =
      Real.sqrt (8 * (1 - 1 / 2) *
        (mech0.rho / ((min ((wl1.length : ℤ)) mech0.rounds : ℤ) : ℝ))) ∧
    runState mech0 dataA wl1 engineP rng0 size0 (1 / 2) () =
      (match runRoundsFrom
          (mkCtx mech0 dataA wl1 engineP rng0 size0 (1 / 2)
            (min ((wl1.length : ℤ)) mech0.rounds))
          1 (min ((wl1.length : ℤ)) mech0.rounds).toNat
          ⟨initialModel engineP (if mech0.bounded then some dataA.records else none),
           [], [], none, ()⟩ with
       | .error e => .error e
       | .ok st => .ok (min ((wl1.length : ℤ)) mech0.rounds, st))) :=
  ⟨by decide, by norm_num [mech0], by norm_num, by norm_num,
   budget_split_once mech0 dataA wl1 engineP rng0 size0 (1 / 2) ()
     (by decide) (by norm_num [mech0]) (by norm_num) (by norm_num)⟩

/-- Witness for C2. -/
theorem selection_softmax_witness :
    wl1 ≠ [] ∧
    worst_approximated mech0 rng0 dataA.proj model0 wl1 1 true () =
      .ok (wl1.getD (rng0.choice wl1.length
            (specSelProbs mech0 dataA.proj model0 wl1 1 true) ()).1 [],
          (rng0.choice wl1.length
            (specSelProbs mech0 dataA.proj model0 wl1 1 true) ()).2) :=
  ⟨by decide,
   selection_softmax mech0 rng0 dataA.proj model0 wl1 1 true () (by decide)⟩

/-- Witness for C10. -/
theorem selection_returns_candidate_witness :
    wl1 ≠ [] ∧
    ∃ cl s', worst_approximated mech0 rng0 dataA.proj model0 wl1 1 true () =
        .ok (cl, s') ∧ cl ∈ wl1 :=
  ⟨by decide,
   selection_returns_candidate mech0 rng0 dataA.proj model0 wl1 1 true ()
     (by decide)⟩

/-- Witness for C5: the concrete completed run has exactly
`R = min(|workload|, rounds) = 1` logged measurement. -/
theorem measurement_log_length_witness :
    (1 : ℤ) = min ((wl1.length : ℤ)) mech0.rounds ∧
    stP.measurements.length = (min ((wl1.length : ℤ)) mech0.rounds).toNat :=
  (measurement_log_length mech0 dataA wl1 engineP rng0 size0 (1 / 2) ()).2.2
    1 stP runState_particle_half

/-- Witness for C6. -/
theorem run_deterministic_witness :
    runState mech0 dataA wl1 engineP rng0 size0 (1 / 2) () =
      runState mech0 dataA wl1 engineP rng0 size0 (1 / 2) () ∧
    run mech0 dataA wl1 engineP rng0 size0 (1 / 2) none () =
      run mech0 dataA wl1 engineP rng0 size0 (1 / 2) none () :=
  run_deterministic mech0 dataA wl1 engineP rng0 size0 (1 / 2) none () () rfl

/-- Witness for C7: the concrete factored run ends within the size budget. -/
theorem model_size_cap_witness :
    size0 stP.cliques ≤ mech0.max_model_size :=
  (model_size_cap mech0 dataA wl1 engineF rng0 size0 (1 / 2) () rfl
    (by decide)).2 1 stP runState_factored_half

/-- Witness for C8. -/
theorem measurement_record_form_witness :
    ∃ ax s1, selectClique ctxP 1 st0P = .ok (ax, s1) ∧
      stP.measurements = st0P.measurements ++
        [(Domain.size ctxP.data.domain ax,
          List.zipWith (· + ·) (ctxP.data.proj ax)
            (ctxP.rng.normal 0 (ctxP.mech.marginal_sensitivity * ctxP.sigma)
              (Domain.size ctxP.data.domain ax) s1).1,
          (1 : ℝ), ax)] ∧
      (List.zipWith (· + ·) (ctxP.data.proj ax)
        (ctxP.rng.normal 0 (ctxP.mech.marginal_sensitivity * ctxP.sigma)
          (Domain.size ctxP.data.domain ax) s1).1).length
        = Domain.size ctxP.data.domain ax :=
  measurement_record_form ctxP 1 st0P stP
    (fun cl => by simp [ctxP, mkCtx, dataA, Domain.size]) roundStep_ctxP

/-- Witness for C9's amended statement. -/
theorem initial_model_reestimation_witness :
    initialModel engineF none = (engineF.estimate [] none).1 ∧
    initialModel engineP none = engineP.initParticle ∧
    (stP.est = (ctxP.engine.estimate stP.measurements ctxP.total).1 ∧
     stP.loss = some (ctxP.engine.estimate stP.measurements ctxP.total).2 ∧
     ∃ m, stP.measurements = st0P.measurements ++ [m]) :=
  ⟨(initial_model_reestimation Unit).1 engineF none rfl,
   (initial_model_reestimation Unit).2.1 engineP none rfl,
   (initial_model_reestimation Unit).2.2 ctxP 1 st0P stP roundStep_ctxP⟩

/-- Witness for C3's amended statement: an empty workload makes the very
first division raise, and `alpha = 0` makes the second one raise. -/
theorem run_divzero_only_witness :
    runState mech0 dataA ([] : List Clique) engineP rng0 size0 (1 / 2) () =
      .error .zeroDivision ∧
    runState mech0 dataA wl1 engineP rng0 size0 0 () = .error .zeroDivision :=
  ⟨(run_divzero_only mech0 dataA [] engineP rng0 size0 (1 / 2) ()).1 (by decide),
   (run_divzero_only mech0 dataA wl1 engineP rng0 size0 0 ()).2 (by simp)⟩

/-- Witness for C4's amended statement. -/
theorem empty_candidates_selector_error_witness :
    worst_approximated mech0 rng0 dataA.proj model0 [] 1 true () =
      .error .valueError ∧
    roundStep ctxF2 1 st0P = .error .valueError :=
  ⟨(empty_candidates_selector_error mech0 rng0 dataA.proj model0 1 true ()).1,
   (empty_candidates_selector_error mech0 rng0 dataA.proj model0 1 true ()).2
     ctxF2 1 st0P rfl candidatesOf_ctxF2⟩

end PrivPGD
